import Mathlib

/-!
Verification development for the marker document-conversion core.

The definitions below are shallow embeddings of the Python source:
table grid reconstruction (`marker/renderers/markdown.py`,
`Markdownify.convert_table`), the content-reference resolvers
(`marker/renderers/html.py`, `marker/renderers/__init__.py`,
`marker/renderers/chunk.py`), provider-output fusion
(`marker/providers/__init__.py`, `ProviderOutput.merge`), the geometric
matcher (`marker/util.py`, `matrix_intersection_area`, `sort_text_lines`)
and consecutive-tag merging (`marker/renderers/__init__.py`,
`BaseRenderer.merge_consecutive_tags`).

Machine floats are modelled by `ℚ`, Python strings by `String` or
`List Char`, raising an exception by `Except String`, and Python list
indexing with `try/except IndexError: continue` by bounds-checked
operations (`List.set` is the identity out of range, exactly the
observable effect of catching the `IndexError` and continuing).
-/

namespace Marker

/-! ## Table grid reconstruction (`Markdownify.convert_table`)

A table cell as `convert_table` sees it after BeautifulSoup parsing:
`rowspan`/`colspan` are `int(cell.get("rowspan"/"colspan", 1))` and
`value` is the already formatted cell text
(`get_formatted_table_text(cell).replace("\n"," ").replace("|"," ").strip()`),
which we take as given since the claims are about grid structure. -/
structure TableCell where
  rowspan : Nat
  colspan : Nat
  value : String
deriving DecidableEq

/-- One `<tr>` row: its `td`/`th` cells in document order. -/
abbrev TableRow := List TableCell

/-- Inner loop of the column-count pass of `convert_table`:
`for cell in row.find_all(["td","th"]): colspan = ...; row_cols += colspan;`
`for r in range(int(cell.get("rowspan", 1)) - 1): rowspan_cols[i + r] += colspan`.
The `defaultdict(int)` `rowspan_cols` is modelled as a total function. -/
def countRowCells (i : Nat) (rowCols : Nat) (rowspanCols : Nat → Nat) :
    List TableCell → Nat × (Nat → Nat)
  | [] => (rowCols, rowspanCols)
  | cell :: rest =>
      let rowCols := rowCols + cell.colspan
      let rowspanCols :=
        (List.range (cell.rowspan - 1)).foldl
          (fun m r => fun j => if j = i + r then m j + cell.colspan else m j)
          rowspanCols
      countRowCells i rowCols rowspanCols rest

/-- Outer loop of the column-count pass:
`for i, row in enumerate(el.find_all("tr")): row_cols = rowspan_cols[i]; ...;`
`colspans.append(row_cols)`. -/
def computeColspansAux (i : Nat) (rowspanCols : Nat → Nat) :
    List TableRow → List Nat
  | [] => []
  | row :: rest =>
      let p := countRowCells i (rowspanCols i) rowspanCols row
      p.1 :: computeColspansAux (i + 1) p.2 rest

/-- `colspans` list of `convert_table`. -/
def computeColspans (rows : List TableRow) : List Nat :=
  computeColspansAux 0 (fun _ => 0) rows

/-- `total_cols = max(colspans) if colspans else 0`.  On `Nat` this equals a
fold of `max` starting from `0`. -/
def totalCols (rows : List TableRow) : Nat :=
  (computeColspans rows).foldl max 0

/-- A second definition following the words of the specification and of the
claim: the total column count is the maximum, over rows `j`, of the sum of
row `j`'s own colspans plus the colspans pushed down onto row `j` by cells
in earlier rows `i` whose rowspan covers it (a cell at row `i` with rowspan
`s` contributes its colspan to rows `i+1` through `i+s-1`, i.e. to the `j`
with `i < j < i + s`).  Compared against `totalCols` for claim C2. -/
def specRowCount (rows : List TableRow) (j : Nat) : Nat :=
  ((rows.getD j []).map (fun c => c.colspan)).sum +
    ((List.range j).map (fun i =>
      ((rows.getD i []).map (fun c =>
        if j < i + c.rowspan then c.colspan else 0)).sum)).sum

/-- Spec-side total column count (maximum of `specRowCount` over the rows). -/
def specTotalCols (rows : List TableRow) : Nat :=
  ((List.range rows.length).map (specRowCount rows)).foldl max 0

/-- The dense grid: `grid = [[None]*total_cols for _ in range(total_rows)]`,
entries `None`, `""` (filled-empty) or a cell value. -/
abbrev Grid := List (List (Option String))

/-- `grid = [[None for _ in range(total_cols)] for _ in range(total_rows)]`. -/
def initGrid (totalRows totalColsN : Nat) : Grid :=
  List.replicate totalRows (List.replicate totalColsN none)

/-- `grid[r][c] = v` guarded by `try: ... except IndexError: continue`:
an out-of-range row or column leaves the grid unchanged (`List.set` is the
identity out of range, matching the swallowed `IndexError`; the indices are
natural numbers, so Python's negative indexing never arises). -/
def gridSet (g : Grid) (r c : Nat) (v : Option String) : Grid :=
  match g.get? r with
  | none => g
  | some row => g.set r (row.set c v)

/-- Read `grid[r][c]`; in the source every read is in bounds. -/
def gridGet (g : Grid) (r c : Nat) : Option String :=
  (g.getD r []).getD c none

/-- Body of `while col_idx < total_cols and grid[row_idx][col_idx] is not None:`
`col_idx += 1`, recursing on `total_cols - col_idx` (positive exactly while
`col_idx < total_cols`, so the loop guard is the fuel being nonzero). -/
def skipFilledAux (g : Grid) (rowIdx : Nat) : Nat → Nat → Nat
  | 0, colIdx => colIdx
  | fuel + 1, colIdx =>
      if (gridGet g rowIdx colIdx).isSome then
        skipFilledAux g rowIdx fuel (colIdx + 1)
      else colIdx

/-- `while col_idx < total_cols and grid[row_idx][col_idx] is not None:`
`col_idx += 1`. -/
def skipFilled (g : Grid) (rowIdx totalColsN colIdx : Nat) : Nat :=
  skipFilledAux g rowIdx (totalColsN - colIdx) colIdx

/-- `for r in range(rowspan): for c in range(colspan): try: ... write`:
the anchor `(r,c) = (0,0)` receives the value, every other covered
position receives `""`. -/
def fillCell (g : Grid) (rowIdx colIdx : Nat) (cell : TableCell) : Grid :=
  (List.range cell.rowspan).foldl (fun g r =>
    (List.range cell.colspan).foldl (fun g c =>
      if r = 0 ∧ c = 0 then gridSet g rowIdx colIdx (some cell.value)
      else gridSet g (rowIdx + r) (colIdx + c) (some "")) g) g

/-- Per-row placement loop of `convert_table`: skip filled positions, then
`if col_idx >= total_cols: continue` (the cell is skipped and `col_idx` is
not advanced), otherwise write the cell and advance by its colspan. -/
def fillRow (g : Grid) (rowIdx totalColsN colIdx : Nat) :
    List TableCell → Grid
  | [] => g
  | cell :: rest =>
      let colIdx := skipFilled g rowIdx totalColsN colIdx
      if totalColsN ≤ colIdx then fillRow g rowIdx totalColsN colIdx rest
      else
        fillRow (fillCell g rowIdx colIdx cell) rowIdx totalColsN
          (colIdx + cell.colspan) rest

/-- `for row_idx, tr in enumerate(el.find_all("tr")): col_idx = 0; ...`. -/
def fillRows (g : Grid) (totalColsN rowIdx : Nat) : List TableRow → Grid
  | [] => g
  | row :: rest =>
      fillRows (fillRow g rowIdx totalColsN 0 row) totalColsN (rowIdx + 1) rest

/-- The filled grid produced by `convert_table` for a table. -/
def convertTableGrid (rows : List TableRow) : Grid :=
  fillRows (initGrid rows.length (totalCols rows)) (totalCols rows) 0 rows

/-- Column widths: `col_widths[j] = max(col_widths[j], len(str(cell)))` over
the non-`None` entries of each row; this function folds in one row. -/
def updateWidths : List Nat → List (Option String) → List Nat
  | ws, [] => ws
  | [], _ => []
  | w :: ws, c :: cs =>
      (match c with
       | some s => max w s.length
       | none => w) :: updateWidths ws cs

/-- `col_widths = [0] * total_cols` then the double loop over the grid. -/
def colWidths (g : Grid) (totalColsN : Nat) : List Nat :=
  g.foldl updateWidths (List.replicate totalColsN 0)

/-- Model of `"|".join(pieces)`. -/
def pipeJoin : List String → String
  | [] => ""
  | [s] => s
  | s :: rest => s ++ "|" ++ pipeJoin rest

/-- `"|" + "|".join("-" * (width + 2) for width in col_widths) + "|"`. -/
def headerLine (ws : List Nat) : String :=
  "|" ++ pipeJoin (ws.map (fun w => String.mk (List.replicate (w + 2) '-'))) ++ "|"

/-- `is_empty_line = all(not cell for cell in row)`: `None` and `""` are
falsy. -/
def isEmptyLine (row : List (Option String)) : Bool :=
  row.all (fun c => (c.getD "").isEmpty)

/-- One emitted table row: each cell becomes `" " + cell + " " * padding + " "`
(`None` printed as `""`), joined with `"|"` and wrapped in `"|"`. -/
def renderRow (ws : List Nat) (row : List (Option String)) : String :=
  "|" ++ pipeJoin (List.zipWith (fun w c =>
    " " ++ (c : Option String).getD "" ++
      String.mk (List.replicate (w - ((c : Option String).getD "").length) ' ') ++
      " ") ws row) ++ "|"

/-- The emission loop of `convert_table`: skip leading blank grid rows, emit
each remaining row, and append the header separator right after the first
emitted row (`added_header`). -/
def renderLoop (ws : List Nat) (addedHeader : Bool) : Grid → List String
  | [] => []
  | row :: rest =>
      if isEmptyLine row ∧ addedHeader = false then renderLoop ws addedHeader rest
      else
        renderRow ws row ::
          (if addedHeader = false then [headerLine ws] else []) ++
            renderLoop ws true rest

/-- `markdown_lines` of `convert_table`, including the final
`if total_rows == 1: add_header_line()`. -/
def convertTableLines (rows : List TableRow) : List String :=
  let tc := totalCols rows
  let g := convertTableGrid rows
  let ws := colWidths g tc
  renderLoop ws false g ++ (if rows.length = 1 then [headerLine ws] else [])

/-! ## Content-reference resolution (`extract_html`, `extract_block_html`,
`assemble_html_with_images`) -/

/-- Modelled from the spec: `BlockId` (its module `marker/schema/blocks/base.py`
is not among the provided sources) is a triple `(block_type, page_id, block_id)`;
two BlockIds are equal iff all three fields match, and the comparison
`item.id == src` against the string of a `src` attribute succeeds exactly
when the serialized forms coincide, i.e. when the triples coincide
(round-trip invariant). -/
structure BlockId where
  blockType : String
  pageId : Nat
  blockId : Nat
deriving DecidableEq

/-- Modelled from the spec: the path-safe serialization used for image
artifact names (`ref_block_id.to_path()`). -/
def BlockId.toPath (i : BlockId) : String :=
  i.blockType ++ "_" ++ toString i.pageId ++ "_" ++ toString i.blockId

/-- A fragment of a block's intermediate HTML as the resolver walks it:
literal markup text, or one `content-ref` placeholder carrying its `src`
target (the result of `soup.find_all("content-ref")` on the parsed html,
in document order). -/
inductive Piece where
  | text (s : String)
  | ref (src : BlockId)
deriving DecidableEq

/-- An intermediate output node (`BlockOutput`): its id, its html as parsed
pieces, and its child output nodes in structure order. -/
inductive ONode where
  | node (id : BlockId) (pieces : List Piece) (children : List ONode)

/-- The id of an output node. -/
def ONode.idOf : ONode → BlockId
  | .node i _ _ => i

/-- Renderer configuration used by the resolvers: the block types counted as
images (`image_blocks`), as pages (`page_blocks`), and the
`extract_images` / `paginate_output` flags. -/
structure RenderCfg where
  imageBlocks : List String
  pageBlocks : List String
  extractImages : Bool
  paginate : Bool
deriving DecidableEq

/-- The default renderer configuration: `image_blocks = (Picture, Figure)`,
`page_blocks = (Page,)`, `extract_images = True`, `paginate_output = False`. -/
def defaultCfg : RenderCfg :=
  ⟨["Picture", "Figure"], ["Page"], true, false⟩

/-- What `HTMLRenderer.extract_html` substitutes for one `content-ref` once
`ref_block_id` is known: the image branch builds
`<p>{content}<img src='{name}'></p>` (image bytes themselves are out of
scope; the name is `to_path()` plus the configured extension, modelled as
`.jpeg`), the page branch wraps the content in a page `div` when paginating,
and every other type splices the content verbatim.  `insert_block_id` is
the identity under the default `add_block_ids = False` modelled here. -/
def dispatchHtml (cfg : RenderCfg) (rid : BlockId) (content : String) : String :=
  if rid.blockType ∈ cfg.imageBlocks then
    if cfg.extractImages then
      "<p>" ++ content ++ "<img src=\"" ++ rid.toPath ++ ".jpeg\"></p>"
    else content
  else if rid.blockType ∈ cfg.pageBlocks then
    if cfg.paginate then
      "<div class=\"page\" data-page-id=\"" ++ toString rid.pageId ++ "\">" ++
        content ++ "</div>"
    else content
  else content

mutual

/-- `HTMLRenderer.extract_html` (the recursive resolution core; the images
dictionary and the level-0 post-processing and document wrapper are
orthogonal to the resolution loop modelled here).  A raised exception is an
`Except.error`. -/
def extractHtml (cfg : RenderCfg) : ONode → Except String String
  | .node _ pieces children => resolveRefsHtml cfg children none pieces
termination_by n => sizeOf n

/-- The `for ref in content_refs` loop of `extract_html`.  `refBlockId` is
the `ref_block_id` variable, initialized to `None` before the loop and kept
across iterations; `content` is reset to `""` at each iteration.  When no
child matches, the dispatch reads `ref_block_id.block_type`: on the stale
`None` this raises `AttributeError`, otherwise the previous iteration's id
is used with the empty fresh content. -/
def resolveRefsHtml (cfg : RenderCfg) (children : List ONode)
    (refBlockId : Option BlockId) : List Piece → Except String String
  | [] => Except.ok ""
  | .text s :: rest => do
      let out ← resolveRefsHtml cfg children refBlockId rest
      Except.ok (s ++ out)
  | .ref src :: rest =>
      match children.attach.find? (fun c => decide (c.1.idOf = src)) with
      | some c => do
          let content ← extractHtml cfg c.1
          let out ← resolveRefsHtml cfg children (some c.1.idOf) rest
          Except.ok (dispatchHtml cfg c.1.idOf content ++ out)
      | none =>
          match refBlockId with
          | none =>
              Except.error "AttributeError: NoneType object has no attribute block_type"
          | some prev => do
              let out ← resolveRefsHtml cfg children (some prev) rest
              Except.ok (dispatchHtml cfg prev "" ++ out)
termination_by pieces => sizeOf children + sizeOf pieces
decreasing_by
  all_goals simp_wf
  all_goals try have h := List.sizeOf_lt_of_mem c.2
  all_goals omega

end

/-- Serialization of a `content-ref` tag that was left in the soup, as
`str(soup)` prints it. -/
def refMarkup (src : BlockId) : String :=
  "<content-ref src=\"" ++ src.blockType ++ "/" ++ toString src.pageId ++ "/" ++
    toString src.blockId ++ "\"></content-ref>"

mutual

/-- `BaseRenderer.extract_block_html` (the resolution core; image payloads
are out of scope).  Differences from the HTML renderer, straight from the
source: the image branch only records the image and never replaces the
`content-ref` tag, which therefore survives in `str(soup)`; and `content`
is not reset between loop iterations, so an unmatched reference after a
matched one splices the stale previous content. -/
def extractBlockHtml (cfg : RenderCfg) : ONode → Except String String
  | .node _ pieces children => resolveRefsBase cfg children none none pieces
termination_by n => sizeOf n

/-- The `for ref in content_refs` loop of `extract_block_html`.
`refBlockId` models `ref_block_id` (initialized `None`), `content` models
the `content` variable (unbound before the first match; reading it unbound
would raise `NameError`, reached only after the `ref_block_id.block_type`
attribute access, which on `None` raises `AttributeError` first). -/
def resolveRefsBase (cfg : RenderCfg) (children : List ONode)
    (refBlockId : Option BlockId) (content : Option String) :
    List Piece → Except String String
  | [] => Except.ok ""
  | .text s :: rest => do
      let out ← resolveRefsBase cfg children refBlockId content rest
      Except.ok (s ++ out)
  | .ref src :: rest =>
      match children.attach.find? (fun c => decide (c.1.idOf = src)) with
      | some c => do
          let newContent ← extractBlockHtml cfg c.1
          if c.1.idOf.blockType ∈ cfg.imageBlocks ∧ cfg.extractImages then do
            let out ← resolveRefsBase cfg children (some c.1.idOf) (some newContent) rest
            Except.ok (refMarkup src ++ out)
          else do
            let out ← resolveRefsBase cfg children (some c.1.idOf) (some newContent) rest
            Except.ok (newContent ++ out)
      | none =>
          match refBlockId with
          | none =>
              Except.error "AttributeError: NoneType object has no attribute block_type"
          | some prev =>
              if prev.blockType ∈ cfg.imageBlocks ∧ cfg.extractImages then do
                let out ← resolveRefsBase cfg children refBlockId content rest
                Except.ok (refMarkup src ++ out)
              else
                match content with
                | none => Except.error "NameError: name content is not defined"
                | some cs => do
                    let out ← resolveRefsBase cfg children refBlockId content rest
                    Except.ok (cs ++ out)
termination_by pieces => sizeOf children + sizeOf pieces
decreasing_by
  all_goals simp_wf
  all_goals try have h := List.sizeOf_lt_of_mem c.2
  all_goals omega

end

/-- A fragment of a `JSONBlockOutput`'s html for the chunk renderer: ids in
the JSON tree are serialized strings, so the `src` attribute is a string. -/
inductive JPiece where
  | text (s : String)
  | ref (src : String)
deriving DecidableEq

/-- A node of the hierarchical JSON output (`JSONBlockOutput`) with the
fields `assemble_html_with_images` reads: string id, block type, html and
children. -/
inductive JBlock where
  | node (id : String) (blockType : String) (pieces : List JPiece)
      (children : List JBlock)

/-- The id of a JSON block. -/
def JBlock.idOf : JBlock → String
  | .node i _ _ _ => i

/-- Serialization of an unresolved `content-ref` in the chunk renderer's
output string. -/
def refMarkupJ (src : String) : String :=
  "<content-ref src=\"" ++ src ++ "\"></content-ref>"

/-- `str(soup)` on html whose `content-ref` tags were not touched: text
prints as is and each remaining placeholder prints as its tag markup. -/
def jpiecesStr : List JPiece → String
  | [] => ""
  | .text s :: rest => s ++ jpiecesStr rest
  | .ref src :: rest => refMarkupJ src ++ jpiecesStr rest

/-- The replacement loop of `assemble_html_with_images`:
`if src_id in child_ids: ref.replace_with(child_html[child_ids.index(src_id)])`;
a `src` matching no child id is left in the soup untouched.  The trailing
`html.unescape` is the identity in this model, which never escapes. -/
def spliceRefs (childIds : List String) (childHtml : List String) :
    List JPiece → String
  | [] => ""
  | .text s :: rest => s ++ spliceRefs childIds childHtml rest
  | .ref src :: rest =>
      (match childIds.findIdx? (fun x => decide (x = src)) with
       | some i => childHtml.getD i ""
       | none => refMarkupJ src) ++ spliceRefs childIds childHtml rest

/-- `assemble_html_with_images`: a block without children returns its own
html (wrapped with an `img` tag for image-typed blocks); a container
assembles each child's html recursively and splices it in place of the
matching `content-ref`. -/
def assembleHtmlWithImages (imageBlocks : List String) : JBlock → String
  | .node i bt pieces [] =>
      if bt ∈ imageBlocks then
        "<p>" ++ jpiecesStr pieces ++ "<img src=\"" ++ i ++ "\"></p>"
      else jpiecesStr pieces
  | .node _ _ pieces (c :: cs) =>
      spliceRefs ((c :: cs).map JBlock.idOf)
        ((c :: cs).attach.map (fun x => assembleHtmlWithImages imageBlocks x.1))
        pieces
decreasing_by
  have h := List.sizeOf_lt_of_mem x.2
  simp at h ⊢
  omega

/-! ## Provider output fusion (`ProviderOutput.merge`) -/

/-- A text span; the fusion claims depend only on the identity of the list
elements, so only the text field of `Span` is carried. -/
structure Span where
  text : String
deriving DecidableEq

/-- A character record (`Char` of the provider schema). -/
structure PChar where
  text : String
deriving DecidableEq

/-- Modelled from the spec: `PolygonBox` (its module `marker/schema/polygon.py`
is not among the provided sources).  The spec gives it a derived bounding
box `[x1, y1, x2, y2]` with `x2 ≥ x1`, `y2 ≥ y1`; the polygon is represented
here by that bounding box.  This structure also stands for the raw
`[x1, y1, x2, y2]` box lists consumed by `matrix_intersection_area`. -/
structure PolygonBox where
  x1 : ℚ
  y1 : ℚ
  x2 : ℚ
  y2 : ℚ
deriving DecidableEq

/-- Modelled from the spec: `PolygonBox.merge(others)` is the bbox union of
self and all the others, returning a new polygon (inputs untouched). -/
def PolygonBox.merge (self : PolygonBox) (others : List PolygonBox) : PolygonBox :=
  others.foldl
    (fun a p => ⟨min a.x1 p.x1, min a.y1 p.y1, max a.x2 p.x2, max a.y2 p.y2⟩)
    self

/-- A provider `Line`: the fusion code touches only its polygon. -/
structure Line where
  polygon : PolygonBox
deriving DecidableEq

/-- `ProviderOutput`: one line polygon, the spans, and optionally one char
list per span. -/
structure ProviderOutput where
  line : Line
  spans : List Span
  chars : Option (List (List PChar))
deriving DecidableEq

/-- `ProviderOutput.merge`: the source deep-copies both inputs and mutates
only the copies, which value semantics models exactly; spans always
concatenate; chars concatenate when both sides track them, otherwise the
tracking side's chars are taken as they are; the line polygon becomes
`new_output.line.polygon.merge([other.line.polygon])`. -/
def ProviderOutput.merge (self other : ProviderOutput) : ProviderOutput :=
  let spans := self.spans ++ other.spans
  let chars :=
    match self.chars, other.chars with
    | some cs, some os => some (cs ++ os)
    | none, some os => some os
    | cs, none => cs
  ⟨⟨self.line.polygon.merge [other.line.polygon]⟩, spans, chars⟩

/-- The invariant `len(spans) == len(chars)` whenever chars are tracked,
asserted by `PdfProvider.pdftext_extraction` before building a
`ProviderOutput`. -/
def charsInvariantB (p : ProviderOutput) : Bool :=
  match p.chars with
  | none => true
  | some cs => cs.length == p.spans.length

/-! ## Geometric matcher (`matrix_intersection_area`, `sort_text_lines`) -/

/-- `matrix_intersection_area`: the NumPy broadcast computes, for every pair,
`max(0, min(x2) - max(x1)) * max(0, min(y2) - max(y1))` (the source names
`min_x` the larger of the two `x1`).  The early return
`np.zeros((len(boxes1), len(boxes2)))` for an empty side coincides with the
per-pair map below (an empty list of rows, or rows that are empty lists). -/
def matrixIntersectionArea (boxes1 boxes2 : List PolygonBox) : List (List ℚ) :=
  boxes1.map (fun b1 => boxes2.map (fun b2 =>
    let minX := max b1.x1 b2.x1
    let minY := max b1.y1 b2.y1
    let maxX := min b1.x2 b2.x2
    let maxY := min b1.y2 b2.y2
    let width := max 0 (maxX - minX)
    let height := max 0 (maxY - minY)
    width * height))

/-- Modelled from the spec: the area of an axis-aligned box `[x1,y1,x2,y2]`
(width times height), against which claim C7 bounds the matrix entries. -/
def boxArea (b : PolygonBox) : ℚ :=
  (b.x2 - b.x1) * (b.y2 - b.y1)

/-- Python's `round` on the exact rationals of this model: round half to
even. -/
def roundHalfEven (q : ℚ) : ℤ :=
  if q - ⌊q⌋ < 1 / 2 then ⌊q⌋
  else if (1 : ℚ) / 2 < q - ⌊q⌋ then ⌊q⌋ + 1
  else if ⌊q⌋ % 2 = 0 then ⌊q⌋ else ⌊q⌋ + 1

/-- `group_key = round(line.bbox[1] / tolerance) * tolerance` — `bbox[1]`
is the top `y1`. -/
def groupKey (tolerance : ℚ) (line : PolygonBox) : ℚ :=
  (roundHalfEven (line.y1 / tolerance) : ℚ) * tolerance

/-- Appending a line to its vertical group: the insertion-ordered Python
dict `vertical_groups` is an association list; an existing key has the line
appended to its group, a new key is appended at the end. -/
def addToGroups (groups : List (ℚ × List PolygonBox)) (k : ℚ)
    (line : PolygonBox) : List (ℚ × List PolygonBox) :=
  match groups with
  | [] => [(k, [line])]
  | (k', g) :: rest =>
      if k' = k then (k', g ++ [line]) :: rest
      else (k', g) :: addToGroups rest k line

/-- The grouping loop `for line in lines: ... vertical_groups[group_key].append(line)`. -/
def buildGroups (tolerance : ℚ) (groups : List (ℚ × List PolygonBox)) :
    List PolygonBox → List (ℚ × List PolygonBox)
  | [] => groups
  | line :: rest =>
      buildGroups tolerance (addToGroups groups (groupKey tolerance line) line) rest

/-- `sort_text_lines`: group by vertical key, order the groups by key
(`sorted(vertical_groups.items())`; the keys of a dict are pairwise
distinct, so the tuple comparison never reaches the group component), sort
each group by `bbox[0]` (`x1`) with Python's stable sort, and concatenate.
Both sorts are modelled by the stable `List.mergeSort`. -/
def sortTextLines (lines : List PolygonBox) (tolerance : ℚ) : List PolygonBox :=
  ((buildGroups tolerance [] lines).mergeSort (fun a b => decide (a.1 ≤ b.1))).flatMap
    (fun g => g.2.mergeSort (fun a b => decide (a.x1 ≤ b.x1)))

/-! ## Consecutive-tag merging (`BaseRenderer.merge_consecutive_tags`)

Python strings are modelled as `List Char` here, so that the regex
replacement can be stated positionally. -/

/-- The characters matched by the pattern's `\s` on the ASCII range. -/
def isWs (c : Char) : Bool :=
  c = ' ' || c = '\t' || c = '\n' || c = '\r' || c = '\x0b' || c = '\x0c'

/-- The literal closing tag `</{tag}>` of the pattern. -/
def closingTag (tag : List Char) : List Char :=
  '<' :: '/' :: (tag ++ ['>'])

/-- The literal opening tag `<{tag}>` of the pattern. -/
def openingTag (tag : List Char) : List Char :=
  '<' :: (tag ++ ['>'])

/-- Length of the maximal leading whitespace run. -/
def leadingWs : List Char → Nat
  | [] => 0
  | c :: rest => if isWs c then leadingWs rest + 1 else 0

/-- Greedy match of `(\s*)<{tag}>` at the head of `s`: the regex engine
takes the longest whitespace run after which the opening tag still matches,
backtracking one character at a time.  Called with the maximal run length;
returns the length of the matched group. -/
def greedyWs (opening : List Char) (s : List Char) : Nat → Option Nat
  | 0 => if opening.isPrefixOf s then some 0 else none
  | n + 1 =>
      if opening.isPrefixOf (s.drop (n + 1)) then some (n + 1)
      else greedyWs opening s n

/-- Match of the pattern `</{tag}>(\s*)<{tag}>` at the head of `s`,
returning the matched group-1 length. -/
def matchAt (tag : List Char) (s : List Char) : Option Nat :=
  if (closingTag tag).isPrefixOf s then
    greedyWs (openingTag tag) (s.drop (closingTag tag).length)
      (leadingWs (s.drop (closingTag tag).length))
  else none

/-- Total length of a match with group-1 length `n`. -/
def matchLen (tag : List Char) (n : Nat) : Nat :=
  (closingTag tag).length + n + (openingTag tag).length

/-- One `re.sub` pass: scan left to right; at a match, emit the replacement
(`""` for an empty group, `" "` otherwise — `replace_whitespace`) and
continue after the matched text without rescanning the replacement; at a
non-match, keep the character and advance by one. -/
def rePass (tag : List Char) : List Char → List Char
  | [] => []
  | c :: rest =>
      match matchAt tag (c :: rest) with
      | some n =>
          (if n = 0 then [] else [' ']) ++
            rePass tag ((c :: rest).drop (matchLen tag n))
      | none => c :: rePass tag rest
termination_by s => s.length
decreasing_by
  · simp only [List.length_drop, matchLen, closingTag, openingTag, List.length_cons,
      List.length_append]
    omega
  · simp

/-- The `while True` fixpoint loop of `merge_consecutive_tags`.  Each
effective pass strictly shortens the string (proved below), so
`html.length + 1` passes always reach the fixpoint; the fuel only bounds
the iteration count of the source's unbounded loop. -/
def mergeLoop (tag : List Char) : Nat → List Char → List Char
  | 0, html => html
  | fuel + 1, html =>
      let merged := rePass tag html
      if merged = html then html else mergeLoop tag fuel merged

/-- `BaseRenderer.merge_consecutive_tags` (with the `if not html` early
return). -/
def mergeConsecutiveTags (tag html : List Char) : List Char :=
  if html = [] then html else mergeLoop tag (html.length + 1) html

/-- Whether the pattern `</{tag}>(\s*)<{tag}>` matches anywhere in `s`. -/
def hasOcc (tag : List Char) : List Char → Bool
  | [] => false
  | c :: rest => (matchAt tag (c :: rest)).isSome || hasOcc tag rest

/-! ## Theorems -/

/-- Membership after a `List.set` comes from the original list or is the
written element. -/
theorem mem_of_mem_set {α : Type} {l : List α} {n : Nat} {b x : α}
    (h : x ∈ l.set n b) : x ∈ l ∨ x = b := by
  induction l generalizing n with
  | nil => simp at h
  | cons y ys ih =>
      cases n with
      | zero =>
          simp only [List.set_cons_zero, List.mem_cons] at h
          rcases h with h | h
          · right; exact h
          · left; exact List.mem_cons_of_mem _ h
      | succ m =>
          simp only [List.set_cons_succ, List.mem_cons] at h
          rcases h with h | h
          · left; exact h ▸ List.mem_cons_self _ _
          · rcases ih h with h' | h'
            · left; exact List.mem_cons_of_mem _ h'
            · right; exact h'

/-- A fold preserves any invariant preserved by each step. -/
theorem foldl_preserve {α β : Type} (P : β → Prop) (f : β → α → β)
    (l : List α) (b : β) (hf : ∀ b x, P b → P (f b x)) (hb : P b) :
    P (l.foldl f b) := by
  induction l generalizing b with
  | nil => exact hb
  | cons x xs ih => exact ih (f b x) (hf b x hb)

/-- `gridSet` preserves the grid dimensions: the swallowed `IndexError`
means no write ever changes the shape of the allocated grid. -/
theorem gridSet_dims {R C : Nat} {g : Grid} (r c : Nat) (v : Option String)
    (h : g.length = R ∧ ∀ row ∈ g, row.length = C) :
    (gridSet g r c v).length = R ∧ ∀ row ∈ gridSet g r c v, row.length = C := by
  unfold gridSet
  cases hg : g.get? r with
  | none => exact h
  | some row =>
      refine ⟨by rw [List.length_set]; exact h.1, ?_⟩
      intro row' hrow'
      rcases mem_of_mem_set hrow' with h' | h'
      · exact h.2 row' h'
      · rw [h', List.length_set]
        exact h.2 row (List.get?_mem hg)

/-- `fillCell` preserves the grid dimensions. -/
theorem fillCell_dims {R C : Nat} {g : Grid} (r c : Nat) (cell : TableCell)
    (h : g.length = R ∧ ∀ row ∈ g, row.length = C) :
    (fillCell g r c cell).length = R ∧ ∀ row ∈ fillCell g r c cell, row.length = C := by
  unfold fillCell
  refine foldl_preserve
    (fun (g' : Grid) => g'.length = R ∧ ∀ row ∈ g', row.length = C) _ _ _
    (fun g' i hg' => ?_) h
  refine foldl_preserve
    (fun (g' : Grid) => g'.length = R ∧ ∀ row ∈ g', row.length = C) _ _ _
    (fun g'' j hg'' => ?_) hg'
  split
  · exact gridSet_dims _ _ _ hg''
  · exact gridSet_dims _ _ _ hg''

/-- `fillRow` preserves the grid dimensions. -/
theorem fillRow_dims {R C : Nat} (cells : List TableCell) (g : Grid)
    (r tc colIdx : Nat)
    (h : g.length = R ∧ ∀ row ∈ g, row.length = C) :
    (fillRow g r tc colIdx cells).length = R ∧
      ∀ row ∈ fillRow g r tc colIdx cells, row.length = C := by
  induction cells generalizing g colIdx with
  | nil => exact h
  | cons cell rest ih =>
      rw [fillRow]
      split
      · exact ih g _ h
      · exact ih _ _ (fillCell_dims _ _ _ h)

/-- `fillRows` preserves the grid dimensions. -/
theorem fillRows_dims {R C : Nat} (rows : List TableRow) (g : Grid)
    (tc rowIdx : Nat)
    (h : g.length = R ∧ ∀ row ∈ g, row.length = C) :
    (fillRows g tc rowIdx rows).length = R ∧
      ∀ row ∈ fillRows g tc rowIdx rows, row.length = C := by
  induction rows generalizing g rowIdx with
  | nil => exact h
  | cons row rest ih => exact ih _ _ (fillRow_dims _ _ _ _ _ h)

/-- The reconstructed grid always has `total_rows` rows of `total_cols`
columns each: placements never write outside the allocated grid. -/
theorem convertTableGrid_dims (rows : List TableRow) :
    (convertTableGrid rows).length = rows.length ∧
      ∀ row ∈ convertTableGrid rows, row.length = totalCols rows := by
  unfold convertTableGrid
  refine fillRows_dims _ _ _ _ ⟨List.length_replicate _ _, ?_⟩
  intro row hrow
  rw [List.eq_of_mem_replicate hrow]
  exact List.length_replicate _ _

/-- C2: the column-count pass contradicts both the specification and its own
source comment ("Add the colspan to the next rows"): `rowspan_cols[i + r]`
starts distributing at the current row `i` (a dead write, since row `i`'s
count was already read) instead of at `i + 1`, so the last covered row
`i + s - 1` never receives the pushed colspan.  On a table whose first row
is one cell with `rowspan=2, colspan=3` and whose second row is one `1×1`
cell, the code computes 3 columns while the claimed formula gives 4 — and
the second row's cell is then dropped as out of bounds during placement. -/
theorem totalCols_misses_last_spanned_row :
    totalCols [[⟨2, 3, "a"⟩], [⟨1, 1, "b"⟩]] = 3 ∧
    specTotalCols [[⟨2, 3, "a"⟩], [⟨1, 1, "b"⟩]] = 4 ∧
    convertTableGrid [[⟨2, 3, "a"⟩], [⟨1, 1, "b"⟩]] =
      [[some "a", some "", some ""], [some "", some "", some ""]] :=
  ⟨rfl, rfl, rfl⟩

/-- C4: reconstructing the 2-row, 2-column table whose first row is
`[A (rowspan=2, colspan=1), B]` and whose second row is `[C]` puts the
spanned value `A` exactly once, at its anchor `(0,0)`; the position it
covers in the second row, `(1,0)`, is filled-empty; and the emitted text
table has the header separator line right after the first content row. -/
theorem convertTable_rowspan_anchor_once :
    convertTableGrid [[⟨2, 1, "A"⟩, ⟨1, 1, "B"⟩], [⟨1, 1, "C"⟩]] =
      [[some "A", some "B"], [some "", some "C"]] ∧
    (convertTableGrid [[⟨2, 1, "A"⟩, ⟨1, 1, "B"⟩], [⟨1, 1, "C"⟩]]).flatten.count
      (some "A") = 1 ∧
    gridGet (convertTableGrid [[⟨2, 1, "A"⟩, ⟨1, 1, "B"⟩], [⟨1, 1, "C"⟩]]) 1 0 =
      some "" ∧
    convertTableLines [[⟨2, 1, "A"⟩, ⟨1, 1, "B"⟩], [⟨1, 1, "C"⟩]] =
      ["| A | B |", "|---|---|", "|   | C |"] :=
  ⟨rfl, rfl, rfl, rfl⟩

/-- C6: a cell whose declared spans would leave the computed grid is skipped
without an exception and without any write outside the allocated
`total_rows × total_cols` grid — for every input the reconstruction is a
total function whose result keeps exactly the allocated dimensions — and
the remaining in-bounds cells are still placed.  The first concrete table
(first row one `rowspan=2, colspan=2` cell) makes the second row's cells
`b` and `c` overflow the column count: both are skipped, reconstruction
completes.  The second concrete table (first row one `rowspan=3` cell in a
2-row table) overflows the row count: the out-of-grid write is skipped
while the remaining cell `b` is still placed at `(1,1)`. -/
theorem convertTable_overflow_skipped :
    (∀ rows : List TableRow,
      (convertTableGrid rows).length = rows.length ∧
        ∀ row ∈ convertTableGrid rows, row.length = totalCols rows) ∧
    convertTableGrid [[⟨2, 2, "a"⟩], [⟨1, 1, "b"⟩, ⟨1, 1, "c"⟩]] =
      [[some "a", some ""], [some "", some ""]] ∧
    convertTableGrid [[⟨3, 1, "a"⟩], [⟨1, 1, "b"⟩]] =
      [[some "a", none], [some "", some "b"]] :=
  ⟨convertTableGrid_dims, rfl, rfl⟩

/-- Once the header has been emitted, every remaining grid row is emitted,
blank or not. -/
theorem renderLoop_true (ws : List Nat) (g : Grid) :
    renderLoop ws true g = g.map (renderRow ws) := by
  induction g with
  | nil => rfl
  | cons row rest ih => simp [renderLoop, ih]

/-- `updateWidths` keeps the width list at its length. -/
theorem updateWidths_length (ws : List Nat) (row : List (Option String)) :
    (updateWidths ws row).length = ws.length := by
  induction ws generalizing row with
  | nil => cases row <;> rfl
  | cons w ws ih =>
      cases row with
      | nil => rfl
      | cons c cs => simp [updateWidths, ih]

/-- There is one column width per column. -/
theorem colWidths_length (g : Grid) (tc : Nat) :
    (colWidths g tc).length = tc := by
  unfold colWidths
  exact foldl_preserve (fun (ws : List Nat) => ws.length = tc) updateWidths g
    (List.replicate tc 0)
    (fun ws row h => by
      show (updateWidths ws row).length = tc
      rw [updateWidths_length]; exact h)
    (List.length_replicate _ _)

/-- The pipe join of a nonempty list starts with its first piece. -/
theorem pipeJoin_cons_data (x : String) (xs : List String) :
    ∃ tail, (pipeJoin (x :: xs)).data = x.data ++ tail := by
  cases xs with
  | nil => exact ⟨[], by simp [pipeJoin]⟩
  | cons y ys =>
      exact ⟨"|".data ++ (pipeJoin (y :: ys)).data, by
        simp [pipeJoin, String.data_append]⟩

/-- A pipe-wrapped join of a nonempty piece list starts with a pipe and
then the first piece. -/
theorem barWrap_data (x : String) (xs : List String) :
    ∃ t, ("|" ++ pipeJoin (x :: xs) ++ "|").data = '|' :: (x.data ++ t) := by
  obtain ⟨pt, hpt⟩ := pipeJoin_cons_data x xs
  exact ⟨pt ++ ['|'], by
    simp [String.data_append, hpt, show ("|" : String).data = ['|'] from rfl]⟩

/-- An emitted table row over at least one column starts with a pipe and a
space. -/
theorem renderRow_data (w : Nat) (ws : List Nat) (c : Option String)
    (row : List (Option String)) :
    ∃ t, (renderRow (w :: ws) (c :: row)).data = '|' :: ' ' :: t := by
  unfold renderRow
  rw [List.zipWith_cons_cons]
  obtain ⟨t, ht⟩ := barWrap_data _ _
  rw [ht]
  exact ⟨(c.getD "").data ++
      (List.replicate (w - (c.getD "").length) ' ' ++ ([' '] ++ t)), by
    simp [String.data_append, show (" " : String).data = [' '] from rfl]⟩

/-- A header separator over at least one column starts with a pipe and a
dash. -/
theorem headerLine_data (w : Nat) (ws : List Nat) :
    ∃ t, (headerLine (w :: ws)).data = '|' :: '-' :: t := by
  unfold headerLine
  rw [List.map_cons]
  obtain ⟨t, ht⟩ := barWrap_data _ _
  rw [ht]
  exact ⟨List.replicate (w + 1) '-' ++ t, by
    simp [show w + 2 = (w + 1) + 1 from rfl, List.replicate_succ]⟩

/-- Over at least one column, an emitted grid row is never the header
separator line. -/
theorem renderRow_ne_headerLine (w : Nat) (ws : List Nat) (c : Option String)
    (row : List (Option String)) :
    renderRow (w :: ws) (c :: row) ≠ headerLine (w :: ws) := by
  intro h
  obtain ⟨t1, h1⟩ := renderRow_data w ws c row
  obtain ⟨t2, h2⟩ := headerLine_data w ws
  rw [h, h2] at h1
  simp at h1

/-- A grid containing a non-blank row splits into blank rows, the first
non-blank row, and a remainder. -/
theorem exists_first_nonblank (g : Grid)
    (h : ∃ r ∈ g, isEmptyLine r = false) :
    ∃ pre row post, g = pre ++ row :: post ∧
      (∀ r ∈ pre, isEmptyLine r = true) ∧ isEmptyLine row = false := by
  induction g with
  | nil => simp at h
  | cons r g' ih =>
      cases hr : isEmptyLine r with
      | false => exact ⟨[], r, g', rfl, by simp, hr⟩
      | true =>
          obtain ⟨x, hx, hxe⟩ := h
          rcases List.mem_cons.mp hx with hx' | hx'
          · rw [hx'] at hxe; rw [hxe] at hr; cases hr
          · obtain ⟨pre, row, post, hg', hpre, hrow⟩ := ih ⟨x, hx', hxe⟩
            refine ⟨r :: pre, row, post, by rw [hg']; rfl, ?_, hrow⟩
            intro r' hr'
            rcases List.mem_cons.mp hr' with h' | h'
            · rw [h']; exact hr
            · exact hpre r' h'

/-- The emission loop drops the leading blank rows, emits the first
non-blank row, inserts the header separator right after it, and then emits
every remaining row. -/
theorem renderLoop_split (ws : List Nat) (pre : Grid) (row : List (Option String))
    (post : Grid) (hpre : ∀ r ∈ pre, isEmptyLine r = true)
    (hrow : isEmptyLine row = false) :
    renderLoop ws false (pre ++ row :: post) =
      renderRow ws row :: headerLine ws :: post.map (renderRow ws) := by
  induction pre with
  | nil => simp [renderLoop, hrow, renderLoop_true]
  | cons r pre' ih =>
      have hr := hpre r (List.mem_cons_self _ _)
      have : renderLoop ws false ((r :: pre') ++ row :: post) =
          renderLoop ws false (pre' ++ row :: post) := by
        simp [renderLoop, hr]
      rw [this, ih (fun r' hr' => hpre r' (List.mem_cons_of_mem _ hr'))]

/-- C3 (amended): for a table with at least two rows and at least one
non-blank grid row, the emitted lines contain exactly one header separator,
placed immediately after the first non-blank row (leading blank rows are
dropped).  The single-row case is excluded: there the source appends a
second separator (see the counterexample). -/
theorem convertTable_separator_after_first_nonblank (rows : List TableRow)
    (h2 : 2 ≤ rows.length)
    (hnb : ∃ r ∈ convertTableGrid rows, isEmptyLine r = false) :
    ∃ pre row post,
      convertTableGrid rows = pre ++ row :: post ∧
      (∀ r ∈ pre, isEmptyLine r = true) ∧
      isEmptyLine row = false ∧
      convertTableLines rows =
        renderRow (colWidths (convertTableGrid rows) (totalCols rows)) row ::
          headerLine (colWidths (convertTableGrid rows) (totalCols rows)) ::
          post.map (renderRow (colWidths (convertTableGrid rows) (totalCols rows))) ∧
      (convertTableLines rows).count
        (headerLine (colWidths (convertTableGrid rows) (totalCols rows))) = 1 := by
  obtain ⟨pre, row, post, hg, hpre, hrow⟩ := exists_first_nonblank _ hnb
  have hdims := convertTableGrid_dims rows
  have hrowmem : row ∈ convertTableGrid rows := by
    rw [hg]; exact List.mem_append_right _ (List.mem_cons_self _ _)
  have hlenrow : row.length = totalCols rows := hdims.2 row hrowmem
  have hrowne : row ≠ [] := by
    intro e; rw [e] at hrow; simp [isEmptyLine] at hrow
  have htc : 0 < totalCols rows := by
    rw [← hlenrow]
    cases row with
    | nil => exact absurd rfl hrowne
    | cons a b => simp
  have hws : (colWidths (convertTableGrid rows) (totalCols rows)).length =
      totalCols rows := colWidths_length _ _
  obtain ⟨w, ws', hws'⟩ : ∃ w ws',
      colWidths (convertTableGrid rows) (totalCols rows) = w :: ws' := by
    cases hcw : colWidths (convertTableGrid rows) (totalCols rows) with
    | nil => rw [hcw] at hws; simp at hws; omega
    | cons w ws' => exact ⟨w, ws', rfl⟩
  have hne : ∀ r ∈ convertTableGrid rows,
      renderRow (colWidths (convertTableGrid rows) (totalCols rows)) r ≠
        headerLine (colWidths (convertTableGrid rows) (totalCols rows)) := by
    intro r hr
    have hlr : r.length = totalCols rows := hdims.2 r hr
    cases r with
    | nil => rw [← hlr] at htc; simp at htc
    | cons a b => rw [hws']; exact renderRow_ne_headerLine _ _ _ _
  have hone : rows.length ≠ 1 := by omega
  have hlines : convertTableLines rows =
      renderLoop (colWidths (convertTableGrid rows) (totalCols rows)) false
        (convertTableGrid rows) := by
    simp [convertTableLines, hone]
  have hsplit : convertTableLines rows =
      renderRow (colWidths (convertTableGrid rows) (totalCols rows)) row ::
        headerLine (colWidths (convertTableGrid rows) (totalCols rows)) ::
        post.map (renderRow (colWidths (convertTableGrid rows) (totalCols rows))) := by
    rw [hlines, hg, renderLoop_split _ _ _ _ hpre hrow]
  refine ⟨pre, row, post, hg, hpre, hrow, hsplit, ?_⟩
  rw [hsplit]
  have hrowne' : renderRow (colWidths (convertTableGrid rows) (totalCols rows)) row ≠
      headerLine (colWidths (convertTableGrid rows) (totalCols rows)) :=
    hne row hrowmem
  have hmapzero : (post.map
      (renderRow (colWidths (convertTableGrid rows) (totalCols rows)))).count
      (headerLine (colWidths (convertTableGrid rows) (totalCols rows))) = 0 := by
    rw [List.count_eq_zero]
    intro hmem
    obtain ⟨r, hrpost, hr⟩ := List.mem_map.mp hmem
    have : r ∈ convertTableGrid rows := by
      rw [hg]; exact List.mem_append_right _ (List.mem_cons_of_mem _ hrpost)
    exact hne r this hr
  simp [List.count_cons, hmapzero, hrowne']

/-- C3 (counterexample): a single-row table with a non-blank row gets the
header separator twice — once from the emission loop and once from the
`total_rows == 1` special case — so the emitted text does not contain
exactly one separator row. -/
theorem convertTable_single_row_two_separators :
    convertTableLines [[⟨1, 1, "a"⟩]] = ["| a |", "|---|", "|---|"] ∧
    (convertTableLines [[⟨1, 1, "a"⟩]]).count
      (headerLine (colWidths (convertTableGrid [[⟨1, 1, "a"⟩]])
        (totalCols [[⟨1, 1, "a"⟩]]))) = 2 :=
  ⟨rfl, rfl⟩

/-- Witness for the amended C3 theorem on a concrete two-row table. -/
theorem convertTable_separator_witness :
    2 ≤ ([[⟨1, 1, "a"⟩], [⟨1, 1, "b"⟩]] : List TableRow).length ∧
    (∃ r ∈ convertTableGrid [[⟨1, 1, "a"⟩], [⟨1, 1, "b"⟩]],
      isEmptyLine r = false) ∧
    (∃ pre row post,
      convertTableGrid [[⟨1, 1, "a"⟩], [⟨1, 1, "b"⟩]] = pre ++ row :: post ∧
      (∀ r ∈ pre, isEmptyLine r = true) ∧
      isEmptyLine row = false ∧
      convertTableLines [[⟨1, 1, "a"⟩], [⟨1, 1, "b"⟩]] =
        renderRow (colWidths (convertTableGrid [[⟨1, 1, "a"⟩], [⟨1, 1, "b"⟩]])
            (totalCols [[⟨1, 1, "a"⟩], [⟨1, 1, "b"⟩]])) row ::
          headerLine (colWidths (convertTableGrid [[⟨1, 1, "a"⟩], [⟨1, 1, "b"⟩]])
            (totalCols [[⟨1, 1, "a"⟩], [⟨1, 1, "b"⟩]])) ::
          post.map (renderRow
            (colWidths (convertTableGrid [[⟨1, 1, "a"⟩], [⟨1, 1, "b"⟩]])
              (totalCols [[⟨1, 1, "a"⟩], [⟨1, 1, "b"⟩]]))) ∧
      (convertTableLines [[⟨1, 1, "a"⟩], [⟨1, 1, "b"⟩]]).count
        (headerLine (colWidths (convertTableGrid [[⟨1, 1, "a"⟩], [⟨1, 1, "b"⟩]])
          (totalCols [[⟨1, 1, "a"⟩], [⟨1, 1, "b"⟩]]))) = 1) :=
  ⟨by decide, by decide,
    convertTable_separator_after_first_nonblank _ (by decide) (by decide)⟩

/-- `getD` through a `map` at an in-bounds index. -/
theorem getD_map_lt {α β : Type} (f : α → β) (l : List α) (i : Nat)
    (hi : i < l.length) (d : α) (db : β) :
    (l.map f).getD i db = f (l.getD i d) := by
  simp [List.getD_eq_getElem?_getD, List.getElem?_map, List.getElem?_eq_getElem hi]

/-- An in-bounds `getD` is a member. -/
theorem getD_mem_of_lt {α : Type} (l : List α) (i : Nat) (hi : i < l.length)
    (d : α) : l.getD i d ∈ l := by
  rw [List.getD_eq_getElem?_getD, List.getElem?_eq_getElem hi]
  exact List.getElem_mem _

/-- C8: merging two ProviderOutputs concatenates the span lists in order and
takes the bbox union of the two line polygons; by construction on deep
copies (value semantics here), the inputs are untouched. -/
theorem providerMerge_concat_union (a b : ProviderOutput) :
    (a.merge b).spans = a.spans ++ b.spans ∧
    (a.merge b).line.polygon = a.line.polygon.merge [b.line.polygon] ∧
    (a.merge b).line.polygon =
      ⟨min a.line.polygon.x1 b.line.polygon.x1,
       min a.line.polygon.y1 b.line.polygon.y1,
       max a.line.polygon.x2 b.line.polygon.x2,
       max a.line.polygon.y2 b.line.polygon.y2⟩ :=
  ⟨rfl, rfl, rfl⟩

/-- C5 (counterexample): two ProviderOutputs that each satisfy the
spans/chars invariant, of which exactly one tracks chars, merge into an
output that tracks chars but violates the invariant (2 spans, 1 char
list). -/
theorem providerMerge_one_sided_chars_breaks_invariant :
    charsInvariantB ⟨⟨⟨0, 0, 1, 1⟩⟩, [⟨"x"⟩], some [[⟨"x"⟩]]⟩ = true ∧
    charsInvariantB ⟨⟨⟨0, 0, 1, 1⟩⟩, [⟨"y"⟩], none⟩ = true ∧
    charsInvariantB
      ((⟨⟨⟨0, 0, 1, 1⟩⟩, [⟨"x"⟩], some [[⟨"x"⟩]]⟩ : ProviderOutput).merge
        ⟨⟨⟨0, 0, 1, 1⟩⟩, [⟨"y"⟩], none⟩) = false :=
  ⟨rfl, rfl, rfl⟩

/-- C5 (amended): merge preserves the spans/chars invariant when both
inputs track chars or neither does; when exactly one input tracks chars,
the merged output violates the invariant as soon as the non-tracking input
has at least one span. -/
theorem providerMerge_chars_invariant (a b : ProviderOutput)
    (ha : charsInvariantB a = true) (hb : charsInvariantB b = true) :
    ((a.chars.isSome ↔ b.chars.isSome) → charsInvariantB (a.merge b) = true) ∧
    (∀ csa, a.chars = some csa → b.chars = none → b.spans ≠ [] →
      charsInvariantB (a.merge b) = false) ∧
    (∀ csb, a.chars = none → b.chars = some csb → a.spans ≠ [] →
      charsInvariantB (a.merge b) = false) := by
  refine ⟨?_, ?_, ?_⟩
  · intro hiff
    rcases hca : a.chars with _ | csa <;> rcases hcb : b.chars with _ | csb
    · simp [ProviderOutput.merge, charsInvariantB, hca, hcb]
    · rw [hca, hcb] at hiff; simp at hiff
    · rw [hca, hcb] at hiff; simp at hiff
    · have ha' : csa.length = a.spans.length := by
        simp only [charsInvariantB, hca, beq_iff_eq] at ha; exact ha
      have hb' : csb.length = b.spans.length := by
        simp only [charsInvariantB, hcb, beq_iff_eq] at hb; exact hb
      simp [ProviderOutput.merge, charsInvariantB, hca, hcb,
        List.length_append, ha', hb']
  · intro csa hcaeq hcbeq hne
    have ha' : csa.length = a.spans.length := by
      simp only [charsInvariantB, hcaeq, beq_iff_eq] at ha; exact ha
    have hpos : 0 < b.spans.length := List.length_pos.mpr hne
    simp only [ProviderOutput.merge, charsInvariantB, hcaeq, hcbeq,
      List.length_append, beq_eq_false_iff_ne, ne_eq]
    omega
  · intro csb hcaeq hcbeq hne
    have hb' : csb.length = b.spans.length := by
      simp only [charsInvariantB, hcbeq, beq_iff_eq] at hb; exact hb
    have hpos : 0 < a.spans.length := List.length_pos.mpr hne
    simp only [ProviderOutput.merge, charsInvariantB, hcaeq, hcbeq,
      List.length_append, beq_eq_false_iff_ne, ne_eq]
    omega

/-- Witness for the amended C5 theorem: two char-tracking inputs merge into
an invariant-satisfying output. -/
theorem providerMerge_chars_invariant_witness :
    charsInvariantB ⟨⟨⟨0, 0, 1, 1⟩⟩, [⟨"x"⟩], some [[⟨"x"⟩]]⟩ = true ∧
    charsInvariantB ⟨⟨⟨2, 2, 3, 3⟩⟩, [⟨"y"⟩], some [[]]⟩ = true ∧
    charsInvariantB
      ((⟨⟨⟨0, 0, 1, 1⟩⟩, [⟨"x"⟩], some [[⟨"x"⟩]]⟩ : ProviderOutput).merge
        ⟨⟨⟨2, 2, 3, 3⟩⟩, [⟨"y"⟩], some [[]]⟩) = true :=
  ⟨by decide, by decide,
    (providerMerge_chars_invariant _ _ (by decide) (by decide)).1 (by decide)⟩

/-- C7: the intersection-area matrix has one row per left box and one
column per right box, every entry is the claimed closed form, is
nonnegative, and is at most the smaller of the two box areas; an empty
input on either side gives a matrix with the corresponding zero
dimension. -/
theorem matrixIntersectionArea_spec (bs1 bs2 : List PolygonBox)
    (h1 : ∀ b ∈ bs1, b.x1 ≤ b.x2 ∧ b.y1 ≤ b.y2)
    (h2 : ∀ b ∈ bs2, b.x1 ≤ b.x2 ∧ b.y1 ≤ b.y2) :
    (matrixIntersectionArea bs1 bs2).length = bs1.length ∧
    (∀ row ∈ matrixIntersectionArea bs1 bs2, row.length = bs2.length) ∧
    (∀ i j, i < bs1.length → j < bs2.length →
      ((matrixIntersectionArea bs1 bs2).getD i []).getD j 0 =
        max 0 (min (bs1.getD i ⟨0, 0, 0, 0⟩).x2 (bs2.getD j ⟨0, 0, 0, 0⟩).x2 -
          max (bs1.getD i ⟨0, 0, 0, 0⟩).x1 (bs2.getD j ⟨0, 0, 0, 0⟩).x1) *
        max 0 (min (bs1.getD i ⟨0, 0, 0, 0⟩).y2 (bs2.getD j ⟨0, 0, 0, 0⟩).y2 -
          max (bs1.getD i ⟨0, 0, 0, 0⟩).y1 (bs2.getD j ⟨0, 0, 0, 0⟩).y1) ∧
      0 ≤ ((matrixIntersectionArea bs1 bs2).getD i []).getD j 0 ∧
      ((matrixIntersectionArea bs1 bs2).getD i []).getD j 0 ≤
        min (boxArea (bs1.getD i ⟨0, 0, 0, 0⟩)) (boxArea (bs2.getD j ⟨0, 0, 0, 0⟩))) ∧
    (bs1 = [] → matrixIntersectionArea bs1 bs2 = []) ∧
    (bs2 = [] → ∀ row ∈ matrixIntersectionArea bs1 bs2, row = []) := by
  refine ⟨List.length_map _ _, ?_, ?_, ?_, ?_⟩
  · intro row hrow
    obtain ⟨b1, _, rfl⟩ := List.mem_map.mp hrow
    exact List.length_map _ _
  · intro i j hi hj
    have hentry : ((matrixIntersectionArea bs1 bs2).getD i []).getD j 0 =
        max 0 (min (bs1.getD i ⟨0, 0, 0, 0⟩).x2 (bs2.getD j ⟨0, 0, 0, 0⟩).x2 -
          max (bs1.getD i ⟨0, 0, 0, 0⟩).x1 (bs2.getD j ⟨0, 0, 0, 0⟩).x1) *
        max 0 (min (bs1.getD i ⟨0, 0, 0, 0⟩).y2 (bs2.getD j ⟨0, 0, 0, 0⟩).y2 -
          max (bs1.getD i ⟨0, 0, 0, 0⟩).y1 (bs2.getD j ⟨0, 0, 0, 0⟩).y1) := by
      unfold matrixIntersectionArea
      rw [getD_map_lt _ bs1 i hi ⟨0, 0, 0, 0⟩ []]
      rw [getD_map_lt _ bs2 j hj ⟨0, 0, 0, 0⟩ 0]
    have hb1 := h1 _ (getD_mem_of_lt bs1 i hi ⟨0, 0, 0, 0⟩)
    have hb2 := h2 _ (getD_mem_of_lt bs2 j hj ⟨0, 0, 0, 0⟩)
    refine ⟨hentry, ?_, ?_⟩
    · rw [hentry]
      exact mul_nonneg (le_max_left _ _) (le_max_left _ _)
    · rw [hentry]
      have hwx1 : max 0 (min (bs1.getD i ⟨0, 0, 0, 0⟩).x2 (bs2.getD j ⟨0, 0, 0, 0⟩).x2 -
          max (bs1.getD i ⟨0, 0, 0, 0⟩).x1 (bs2.getD j ⟨0, 0, 0, 0⟩).x1) ≤
          (bs1.getD i ⟨0, 0, 0, 0⟩).x2 - (bs1.getD i ⟨0, 0, 0, 0⟩).x1 :=
        max_le (sub_nonneg.mpr hb1.1)
          (sub_le_sub (min_le_left _ _) (le_max_left _ _))
      have hwy1 : max 0 (min (bs1.getD i ⟨0, 0, 0, 0⟩).y2 (bs2.getD j ⟨0, 0, 0, 0⟩).y2 -
          max (bs1.getD i ⟨0, 0, 0, 0⟩).y1 (bs2.getD j ⟨0, 0, 0, 0⟩).y1) ≤
          (bs1.getD i ⟨0, 0, 0, 0⟩).y2 - (bs1.getD i ⟨0, 0, 0, 0⟩).y1 :=
        max_le (sub_nonneg.mpr hb1.2)
          (sub_le_sub (min_le_left _ _) (le_max_left _ _))
      have hwx2 : max 0 (min (bs1.getD i ⟨0, 0, 0, 0⟩).x2 (bs2.getD j ⟨0, 0, 0, 0⟩).x2 -
          max (bs1.getD i ⟨0, 0, 0, 0⟩).x1 (bs2.getD j ⟨0, 0, 0, 0⟩).x1) ≤
          (bs2.getD j ⟨0, 0, 0, 0⟩).x2 - (bs2.getD j ⟨0, 0, 0, 0⟩).x1 :=
        max_le (sub_nonneg.mpr hb2.1)
          (sub_le_sub (min_le_right _ _) (le_max_right _ _))
      have hwy2 : max 0 (min (bs1.getD i ⟨0, 0, 0, 0⟩).y2 (bs2.getD j ⟨0, 0, 0, 0⟩).y2 -
          max (bs1.getD i ⟨0, 0, 0, 0⟩).y1 (bs2.getD j ⟨0, 0, 0, 0⟩).y1) ≤
          (bs2.getD j ⟨0, 0, 0, 0⟩).y2 - (bs2.getD j ⟨0, 0, 0, 0⟩).y1 :=
        max_le (sub_nonneg.mpr hb2.2)
          (sub_le_sub (min_le_right _ _) (le_max_right _ _))
      refine le_min ?_ ?_
      · exact mul_le_mul hwx1 hwy1 (le_max_left _ _) (sub_nonneg.mpr hb1.1)
      · exact mul_le_mul hwx2 hwy2 (le_max_left _ _) (sub_nonneg.mpr hb2.1)
  · intro h; rw [h]; rfl
  · intro h
    intro row hrow
    obtain ⟨b1, _, rfl⟩ := List.mem_map.mp hrow
    rw [h]
    rfl

/-- Witness for C7 on one well-formed box pair. -/
theorem matrixIntersectionArea_spec_witness :
    (∀ b ∈ ([⟨0, 0, 2, 2⟩] : List PolygonBox), b.x1 ≤ b.x2 ∧ b.y1 ≤ b.y2) ∧
    (∀ b ∈ ([⟨1, 1, 3, 3⟩] : List PolygonBox), b.x1 ≤ b.x2 ∧ b.y1 ≤ b.y2) ∧
    ((matrixIntersectionArea [⟨0, 0, 2, 2⟩] [⟨1, 1, 3, 3⟩]).length = 1 ∧
    (∀ row ∈ matrixIntersectionArea [⟨0, 0, 2, 2⟩] [⟨1, 1, 3, 3⟩], row.length = 1) ∧
    (∀ i j, i < ([⟨0, 0, 2, 2⟩] : List PolygonBox).length →
      j < ([⟨1, 1, 3, 3⟩] : List PolygonBox).length →
      ((matrixIntersectionArea [⟨0, 0, 2, 2⟩] [⟨1, 1, 3, 3⟩]).getD i []).getD j 0 =
        max 0 (min (([⟨0, 0, 2, 2⟩] : List PolygonBox).getD i ⟨0, 0, 0, 0⟩).x2
            (([⟨1, 1, 3, 3⟩] : List PolygonBox).getD j ⟨0, 0, 0, 0⟩).x2 -
          max (([⟨0, 0, 2, 2⟩] : List PolygonBox).getD i ⟨0, 0, 0, 0⟩).x1
            (([⟨1, 1, 3, 3⟩] : List PolygonBox).getD j ⟨0, 0, 0, 0⟩).x1) *
        max 0 (min (([⟨0, 0, 2, 2⟩] : List PolygonBox).getD i ⟨0, 0, 0, 0⟩).y2
            (([⟨1, 1, 3, 3⟩] : List PolygonBox).getD j ⟨0, 0, 0, 0⟩).y2 -
          max (([⟨0, 0, 2, 2⟩] : List PolygonBox).getD i ⟨0, 0, 0, 0⟩).y1
            (([⟨1, 1, 3, 3⟩] : List PolygonBox).getD j ⟨0, 0, 0, 0⟩).y1) ∧
      0 ≤ ((matrixIntersectionArea [⟨0, 0, 2, 2⟩] [⟨1, 1, 3, 3⟩]).getD i []).getD j 0 ∧
      ((matrixIntersectionArea [⟨0, 0, 2, 2⟩] [⟨1, 1, 3, 3⟩]).getD i []).getD j 0 ≤
        min (boxArea (([⟨0, 0, 2, 2⟩] : List PolygonBox).getD i ⟨0, 0, 0, 0⟩))
          (boxArea (([⟨1, 1, 3, 3⟩] : List PolygonBox).getD j ⟨0, 0, 0, 0⟩))) ∧
    (([⟨0, 0, 2, 2⟩] : List PolygonBox) = [] →
      matrixIntersectionArea [⟨0, 0, 2, 2⟩] [⟨1, 1, 3, 3⟩] = []) ∧
    (([⟨1, 1, 3, 3⟩] : List PolygonBox) = [] →
      ∀ row ∈ matrixIntersectionArea [⟨0, 0, 2, 2⟩] [⟨1, 1, 3, 3⟩], row = [])) :=
  ⟨by intro b hb; simp at hb; subst hb; constructor <;> norm_num,
   by intro b hb; simp at hb; subst hb; constructor <;> norm_num,
   matrixIntersectionArea_spec _ _
     (by intro b hb; simp at hb; subst hb; constructor <;> norm_num)
     (by intro b hb; simp at hb; subst hb; constructor <;> norm_num)⟩

/-- When no child id matches the `src`, the child search comes up empty. -/
theorem find_attach_none (children : List ONode) (src : BlockId)
    (h : ∀ c ∈ children, ONode.idOf c ≠ src) :
    children.attach.find? (fun c => decide (c.1.idOf = src)) = none := by
  rw [List.find?_eq_none]
  intro x _
  simp only [decide_eq_true_eq]
  exact h x.1 x.2

/-- In the HTML renderer, an unmatched reference hit while `ref_block_id`
is still `None` raises. -/
theorem resolveRefsHtml_unmatched_first (cfg : RenderCfg)
    (children : List ONode) (src : BlockId) (rest : List Piece)
    (h : ∀ c ∈ children, ONode.idOf c ≠ src) :
    resolveRefsHtml cfg children none (Piece.ref src :: rest) =
      Except.error "AttributeError: NoneType object has no attribute block_type" := by
  simp [resolveRefsHtml, find_attach_none children src h]

/-- Leading plain-text fragments just propagate an error from the rest of
the piece list. -/
theorem resolveRefsHtml_text_prefix (cfg : RenderCfg) (children : List ONode)
    (refId : Option BlockId) (pre : List String) (rest : List Piece) (e : String)
    (h : resolveRefsHtml cfg children refId rest = Except.error e) :
    resolveRefsHtml cfg children refId (pre.map Piece.text ++ rest) =
      Except.error e := by
  induction pre with
  | nil => simpa using h
  | cons s pre' ih =>
      simp only [List.map_cons, List.cons_append, resolveRefsHtml, ih]
      rfl

/-- Base-renderer version of `resolveRefsHtml_unmatched_first`. -/
theorem resolveRefsBase_unmatched_first (cfg : RenderCfg)
    (children : List ONode) (src : BlockId) (rest : List Piece)
    (h : ∀ c ∈ children, ONode.idOf c ≠ src) :
    resolveRefsBase cfg children none none (Piece.ref src :: rest) =
      Except.error "AttributeError: NoneType object has no attribute block_type" := by
  simp [resolveRefsBase, find_attach_none children src h]

/-- Base-renderer version of `resolveRefsHtml_text_prefix`. -/
theorem resolveRefsBase_text_prefix (cfg : RenderCfg) (children : List ONode)
    (refId : Option BlockId) (content : Option String) (pre : List String)
    (rest : List Piece) (e : String)
    (h : resolveRefsBase cfg children refId content rest = Except.error e) :
    resolveRefsBase cfg children refId content (pre.map Piece.text ++ rest) =
      Except.error e := by
  induction pre with
  | nil => simpa using h
  | cons s pre' ih =>
      simp only [List.map_cons, List.cons_append, resolveRefsBase, ih]
      rfl

/-- The chunk renderer's splice distributes over concatenation of the piece
list. -/
theorem spliceRefs_append (ids html : List String) (l1 l2 : List JPiece) :
    spliceRefs ids html (l1 ++ l2) =
      spliceRefs ids html l1 ++ spliceRefs ids html l2 := by
  induction l1 with
  | nil => simp [spliceRefs]
  | cons p l1' ih =>
      cases p with
      | text s => simp [spliceRefs, ih, String.append_assoc]
      | ref src => simp [spliceRefs, ih, String.append_assoc]

/-- A `src` matching no child id makes `findIdx?` come up empty. -/
theorem findIdx?_none_of_not_mem (ids : List String) (src : String)
    (h : src ∉ ids) :
    ids.findIdx? (fun x => decide (x = src)) = none := by
  induction ids with
  | nil => rfl
  | cons i ids' ih =>
      have hi : i ≠ src := fun e => h (e ▸ List.mem_cons_self _ _)
      have : src ∉ ids' := fun m => h (List.mem_cons_of_mem _ m)
      simp [List.findIdx?_cons, hi, ih this]

/-- C1 (amended): an unmatched content-ref is not uniformly tolerated.  In
the chunk renderer it is indeed non-fatal: the reference is left in place
as its tag markup (not dropped) and the other references around it are
still resolved.  In the HTML renderer and the base/JSON renderer, however,
a content-ref whose src matches no child raises `AttributeError`
(`NoneType.block_type`) whenever no earlier reference of the same node has
matched; only after a successful match is an unmatched reference processed
(against the stale previous `ref_block_id`). -/
theorem resolver_unmatched_ref_behavior :
    (∀ (cfg : RenderCfg) (nid : BlockId) (pre : List String) (src : BlockId)
        (rest : List Piece) (children : List ONode),
      (∀ c ∈ children, ONode.idOf c ≠ src) →
      extractHtml cfg
          (ONode.node nid (pre.map Piece.text ++ Piece.ref src :: rest) children) =
        Except.error "AttributeError: NoneType object has no attribute block_type") ∧
    (∀ (cfg : RenderCfg) (nid : BlockId) (pre : List String) (src : BlockId)
        (rest : List Piece) (children : List ONode),
      (∀ c ∈ children, ONode.idOf c ≠ src) →
      extractBlockHtml cfg
          (ONode.node nid (pre.map Piece.text ++ Piece.ref src :: rest) children) =
        Except.error "AttributeError: NoneType object has no attribute block_type") ∧
    (∀ (childIds childHtml : List String) (src : String) (l1 l2 : List JPiece),
      src ∉ childIds →
      spliceRefs childIds childHtml (l1 ++ JPiece.ref src :: l2) =
        spliceRefs childIds childHtml l1 ++
          (refMarkupJ src ++ spliceRefs childIds childHtml l2)) := by
  refine ⟨?_, ?_, ?_⟩
  · intro cfg nid pre src rest children h
    rw [extractHtml]
    exact resolveRefsHtml_text_prefix cfg children none pre _ _
      (resolveRefsHtml_unmatched_first cfg children src rest h)
  · intro cfg nid pre src rest children h
    rw [extractBlockHtml]
    exact resolveRefsBase_text_prefix cfg children none none pre _ _
      (resolveRefsBase_unmatched_first cfg children src rest h)
  · intro childIds childHtml src l1 l2 h
    rw [spliceRefs_append]
    simp [spliceRefs, findIdx?_none_of_not_mem childIds src h]

/-- C1 (counterexample): the HTML resolver raises on a node whose only
content-ref matches no child, instead of silently dropping it. -/
theorem extractHtml_unmatched_ref_raises :
    extractHtml defaultCfg
        (ONode.node ⟨"Page", 0, 0⟩ [Piece.ref ⟨"Text", 0, 1⟩] []) =
      Except.error "AttributeError: NoneType object has no attribute block_type" := by
  simp [extractHtml, resolveRefsHtml]

/-- Witness for the amended C1 theorem on concrete nodes. -/
theorem resolver_unmatched_ref_behavior_witness :
    (∀ c ∈ [ONode.node ⟨"Text", 0, 1⟩ [] []],
      ONode.idOf c ≠ (⟨"Text", 0, 9⟩ : BlockId)) ∧
    extractHtml defaultCfg
        (ONode.node ⟨"Page", 0, 0⟩
          (["hello"].map Piece.text ++ Piece.ref ⟨"Text", 0, 9⟩ :: [])
          [ONode.node ⟨"Text", 0, 1⟩ [] []]) =
      Except.error "AttributeError: NoneType object has no attribute block_type" ∧
    extractBlockHtml defaultCfg
        (ONode.node ⟨"Page", 0, 0⟩
          (["hello"].map Piece.text ++ Piece.ref ⟨"Text", 0, 9⟩ :: [])
          [ONode.node ⟨"Text", 0, 1⟩ [] []]) =
      Except.error "AttributeError: NoneType object has no attribute block_type" ∧
    ("x" ∉ ["a"]) ∧
    spliceRefs ["a"] ["<p>A</p>"] ([JPiece.text "t"] ++ JPiece.ref "x" :: []) =
      spliceRefs ["a"] ["<p>A</p>"] [JPiece.text "t"] ++
        (refMarkupJ "x" ++ spliceRefs ["a"] ["<p>A</p>"] []) :=
  ⟨by decide,
   resolver_unmatched_ref_behavior.1 defaultCfg _ _ _ _ _ (by decide),
   resolver_unmatched_ref_behavior.2.1 defaultCfg _ _ _ _ _ (by decide),
   by decide,
   resolver_unmatched_ref_behavior.2.2 _ _ _ _ _ (by decide)⟩

/-- A successful greedy whitespace match fits inside the scanned string. -/
theorem greedyWs_le (opening s : List Char) (fuel n : Nat)
    (ho : 0 < opening.length)
    (h : greedyWs opening s fuel = some n) : n + opening.length ≤ s.length := by
  induction fuel with
  | zero =>
      rw [greedyWs] at h
      split at h
      · cases h
        simpa using (List.isPrefixOf_iff_prefix.mp (by assumption)).length_le
      · cases h
  | succ m ih =>
      rw [greedyWs] at h
      split at h
      · cases h
        have := (List.isPrefixOf_iff_prefix.mp (by assumption)).length_le
        rw [List.length_drop] at this
        omega
      · exact ih h

/-- A successful pattern match fits inside the scanned string. -/
theorem matchAt_le (tag s : List Char) (n : Nat)
    (h : matchAt tag s = some n) : matchLen tag n ≤ s.length := by
  rw [matchAt] at h
  split at h
  · have hc := (List.isPrefixOf_iff_prefix.mp (by assumption)).length_le
    have hg := greedyWs_le _ _ _ _ (by simp [openingTag]) h
    rw [List.length_drop] at hg
    simp only [matchLen]
    omega
  · cases h

/-- One substitution pass never lengthens the string. -/
theorem rePass_length (tag s : List Char) :
    (rePass tag s).length ≤ s.length := by
  induction s using rePass.induct tag with
  | case1 => simp [rePass]
  | case2 c rest n hm ih =>
      simp only [rePass, hm]
      have hk := matchAt_le tag (c :: rest) n hm
      rw [List.length_drop] at ih
      have h5 : 5 ≤ matchLen tag n := by
        simp only [matchLen, closingTag, openingTag, List.length_cons,
          List.length_append]
        omega
      simp only [List.length_cons] at hk ih
      split <;> simp only [List.length_append, List.length_cons,
        List.nil_append, List.length_nil] <;> omega
  | case3 c rest hm ih =>
      simp only [rePass, hm]
      simpa using ih

/-- Each pass either changes nothing or strictly shortens the string: the
termination argument of the `while True` loop. -/
theorem rePass_eq_or_lt (tag s : List Char) :
    rePass tag s = s ∨ (rePass tag s).length < s.length := by
  induction s using rePass.induct tag with
  | case1 => left; rw [rePass]
  | case2 c rest n hm ih =>
      right
      simp only [rePass, hm]
      have hk := matchAt_le tag (c :: rest) n hm
      have h5 : 5 ≤ matchLen tag n := by
        simp only [matchLen, closingTag, openingTag, List.length_cons,
          List.length_append]
        omega
      have hrec := rePass_length tag ((c :: rest).drop (matchLen tag n))
      rw [List.length_drop] at hrec
      simp only [List.length_cons] at hk hrec
      split <;> simp only [List.length_append, List.length_cons,
        List.nil_append, List.length_nil] <;> omega
  | case3 c rest hm ih =>
      simp only [rePass, hm]
      rcases ih with ih | ih
      · left; rw [ih]
      · right; simpa using ih

/-- A string unchanged by one pass contains no occurrence of the pattern. -/
theorem rePass_fix_no_occ (tag s : List Char) (h : rePass tag s = s) :
    hasOcc tag s = false := by
  induction s using rePass.induct tag with
  | case1 => rfl
  | case2 c rest n hm ih =>
      exfalso
      simp only [rePass, hm] at h
      have hk := matchAt_le tag (c :: rest) n hm
      have h5 : 5 ≤ matchLen tag n := by
        simp only [matchLen, closingTag, openingTag, List.length_cons,
          List.length_append]
        omega
      have hrec := rePass_length tag ((c :: rest).drop (matchLen tag n))
      rw [List.length_drop] at hrec
      simp only [List.length_cons] at hk hrec
      have hlen := congrArg List.length h
      split at hlen <;> simp only [List.length_append, List.length_cons,
        List.nil_append, List.length_nil] at hlen <;> omega
  | case3 c rest hm ih =>
      simp only [rePass, hm] at h
      have hfix : rePass tag rest = rest := by
        injection h
      rw [hasOcc, hm]
      simpa using ih hfix

/-- Enough fuel reaches the loop's fixpoint. -/
theorem mergeLoop_fix (tag : List Char) (fuel : Nat) (s : List Char)
    (h : s.length < fuel) :
    rePass tag (mergeLoop tag fuel s) = mergeLoop tag fuel s := by
  induction fuel generalizing s with
  | zero => omega
  | succ m ih =>
      rw [mergeLoop]
      by_cases he : rePass tag s = s
      · simp only [he, if_pos rfl]
        exact he
      · have hlt : (rePass tag s).length < s.length := by
          rcases rePass_eq_or_lt tag s with h' | h'
          · exact absurd h' he
          · exact h'
        simp only [if_neg he]
        exact ih (rePass tag s) (by omega)

/-- C10: each rewrite of `merge_consecutive_tags` strictly shortens the
string (so the `while True` loop terminates), and the result is a
fixpoint: it contains no closing tag followed, up to whitespace, by the
same opening tag, and applying the function twice equals applying it
once. -/
theorem merge_consecutive_tags_fixpoint (tag html : List Char) :
    (rePass tag html = html ∨ (rePass tag html).length < html.length) ∧
    rePass tag (mergeConsecutiveTags tag html) = mergeConsecutiveTags tag html ∧
    hasOcc tag (mergeConsecutiveTags tag html) = false ∧
    mergeConsecutiveTags tag (mergeConsecutiveTags tag html) =
      mergeConsecutiveTags tag html := by
  have hfix : rePass tag (mergeConsecutiveTags tag html) =
      mergeConsecutiveTags tag html := by
    by_cases h0 : html = []
    · subst h0
      simp only [mergeConsecutiveTags, if_pos rfl]
      simp [rePass]
    · rw [mergeConsecutiveTags, if_neg h0]
      exact mergeLoop_fix tag (html.length + 1) html (by omega)
  refine ⟨rePass_eq_or_lt tag html, hfix, rePass_fix_no_occ _ _ hfix, ?_⟩
  by_cases hm : mergeConsecutiveTags tag html = []
  · rw [mergeConsecutiveTags, if_pos hm]
  · rw [mergeConsecutiveTags, if_neg hm, mergeLoop]
    simp [hfix]

/-- Inserting a line under its key keeps every group nonempty and
key-homogeneous. -/
theorem addToGroups_inv (t : ℚ) (groups : List (ℚ × List PolygonBox))
    (line : PolygonBox)
    (h : ∀ p ∈ groups, p.2 ≠ [] ∧ ∀ b ∈ p.2, groupKey t b = p.1) :
    ∀ p ∈ addToGroups groups (groupKey t line) line,
      p.2 ≠ [] ∧ ∀ b ∈ p.2, groupKey t b = p.1 := by
  induction groups with
  | nil =>
      intro p hp
      simp only [addToGroups, List.mem_singleton] at hp
      subst hp
      refine ⟨by simp, ?_⟩
      intro b hb
      simp only [List.mem_singleton] at hb
      subst hb
      rfl
  | cons q rest ih =>
      obtain ⟨k', g⟩ := q
      intro p hp
      by_cases hk : k' = groupKey t line
      · rw [addToGroups, if_pos hk] at hp
        rcases List.mem_cons.mp hp with hp' | hp'
        · subst hp'
          obtain ⟨hne, hkey⟩ := h _ (List.mem_cons_self _ _)
          refine ⟨by simp, ?_⟩
          intro b hb
          rcases List.mem_append.mp hb with hb' | hb'
          · exact hkey b hb'
          · simp only [List.mem_singleton] at hb'
            subst hb'
            exact hk.symm
        · exact h p (List.mem_cons_of_mem _ hp')
      · rw [addToGroups, if_neg hk] at hp
        rcases List.mem_cons.mp hp with hp' | hp'
        · subst hp'
          exact h _ (List.mem_cons_self _ _)
        · exact ih (fun p' hp'' => h p' (List.mem_cons_of_mem _ hp'')) p hp'

/-- A key present after insertion was present before or is the inserted
key. -/
theorem addToGroups_keys_subset (groups : List (ℚ × List PolygonBox))
    (k : ℚ) (line : PolygonBox) :
    ∀ k' ∈ (addToGroups groups k line).map Prod.fst,
      k' ∈ groups.map Prod.fst ∨ k' = k := by
  induction groups with
  | nil =>
      intro k' hk'
      simp only [addToGroups, List.map_cons, List.map_nil,
        List.mem_singleton] at hk'
      exact Or.inr hk'
  | cons q rest ih =>
      obtain ⟨k0, g⟩ := q
      intro k' hk'
      by_cases hk : k0 = k
      · rw [addToGroups, if_pos hk] at hk'
        simp only [List.map_cons, List.mem_cons] at hk' ⊢
        exact Or.inl hk'
      · rw [addToGroups, if_neg hk] at hk'
        simp only [List.map_cons, List.mem_cons] at hk' ⊢
        rcases hk' with hk' | hk'
        · exact Or.inl (Or.inl hk')
        · rcases ih k' hk' with h' | h'
          · exact Or.inl (Or.inr h')
          · exact Or.inr h'

/-- Insertion keeps the group keys pairwise distinct. -/
theorem addToGroups_nodup (groups : List (ℚ × List PolygonBox))
    (k : ℚ) (line : PolygonBox)
    (h : (groups.map Prod.fst).Nodup) :
    ((addToGroups groups k line).map Prod.fst).Nodup := by
  induction groups with
  | nil => simp [addToGroups]
  | cons q rest ih =>
      obtain ⟨k0, g⟩ := q
      simp only [List.map_cons, List.nodup_cons] at h
      by_cases hk : k0 = k
      · rw [addToGroups, if_pos hk]
        simp only [List.map_cons, List.nodup_cons]
        exact h
      · rw [addToGroups, if_neg hk]
        simp only [List.map_cons, List.nodup_cons]
        refine ⟨?_, ih h.2⟩
        intro hmem
        rcases addToGroups_keys_subset rest k line k0 hmem with h' | h'
        · exact h.1 h'
        · exact hk h'

/-- The grouping sweep keeps every group nonempty and key-homogeneous. -/
theorem buildGroups_inv (t : ℚ) (lines : List PolygonBox) :
    ∀ acc, (∀ p ∈ acc, p.2 ≠ [] ∧ ∀ b ∈ p.2, groupKey t b = p.1) →
      ∀ p ∈ buildGroups t acc lines, p.2 ≠ [] ∧ ∀ b ∈ p.2, groupKey t b = p.1 := by
  induction lines with
  | nil => intro acc hacc; exact hacc
  | cons line rest ih =>
      intro acc hacc
      exact ih _ (addToGroups_inv t acc line hacc)

/-- The grouping sweep keeps the group keys pairwise distinct. -/
theorem buildGroups_nodup (t : ℚ) (lines : List PolygonBox) :
    ∀ acc, ((acc.map Prod.fst).Nodup) →
      (((buildGroups t acc lines).map Prod.fst).Nodup) := by
  induction lines with
  | nil => intro acc hacc; exact hacc
  | cons line rest ih =>
      intro acc hacc
      exact ih _ (addToGroups_nodup acc _ line hacc)

/-- Lines that all carry the head group's key are appended to the head
group. -/
theorem buildGroups_const_prefix (t : ℚ) (g : List PolygonBox) (k : ℚ) :
    ∀ (g0 : List PolygonBox) (acc : List (ℚ × List PolygonBox))
      (ys : List PolygonBox), (∀ b ∈ g, groupKey t b = k) →
      buildGroups t ((k, g0) :: acc) (g ++ ys) =
        buildGroups t ((k, g0 ++ g) :: acc) ys := by
  induction g with
  | nil => intro g0 acc ys _; simp
  | cons b g' ih =>
      intro g0 acc ys hk
      have hb : groupKey t b = k := hk b (List.mem_cons_self _ _)
      have hstep : addToGroups ((k, g0) :: acc) (groupKey t b) b =
          (k, g0 ++ [b]) :: acc := by
        rw [addToGroups, if_pos hb.symm]
      rw [List.cons_append, buildGroups, hstep,
        ih (g0 ++ [b]) acc ys (fun b' hb' => hk b' (List.mem_cons_of_mem _ hb'))]
      simp

/-- Lines that never carry the head group's key leave the head group
untouched and in front. -/
theorem buildGroups_skip (t : ℚ) (ys : List PolygonBox) :
    ∀ (k : ℚ) (g : List PolygonBox) (acc : List (ℚ × List PolygonBox)),
      (∀ b ∈ ys, groupKey t b ≠ k) →
      buildGroups t ((k, g) :: acc) ys = (k, g) :: buildGroups t acc ys := by
  induction ys with
  | nil => intro k g acc _; rfl
  | cons b ys' ih =>
      intro k g acc h
      have hb : groupKey t b ≠ k := h b (List.mem_cons_self _ _)
      have hstep : addToGroups ((k, g) :: acc) (groupKey t b) b =
          (k, g) :: addToGroups acc (groupKey t b) b := by
        rw [addToGroups, if_neg (fun e => hb e.symm)]
      rw [buildGroups, hstep, buildGroups]
      exact ih k g _ (fun b' hb' => h b' (List.mem_cons_of_mem _ hb'))

/-- Regrouping the concatenation of nonempty, key-homogeneous groups with
pairwise-distinct keys recovers exactly those groups. -/
theorem buildGroups_blocks (t : ℚ) (blocks : List (ℚ × List PolygonBox))
    (hinv : ∀ p ∈ blocks, p.2 ≠ [] ∧ ∀ b ∈ p.2, groupKey t b = p.1)
    (hnd : (blocks.map Prod.fst).Nodup) :
    buildGroups t [] (blocks.flatMap Prod.snd) = blocks := by
  induction blocks with
  | nil => rfl
  | cons q rest ih =>
      obtain ⟨k, g⟩ := q
      obtain ⟨hne, hkey⟩ := hinv _ (List.mem_cons_self _ _)
      obtain ⟨b0, g', rfl⟩ : ∃ b0 g', g = b0 :: g' := by
        cases g with
        | nil => exact absurd rfl hne
        | cons b0 g' => exact ⟨b0, g', rfl⟩
      have hflat : ((k, b0 :: g') :: rest).flatMap Prod.snd =
          b0 :: (g' ++ rest.flatMap Prod.snd) := by simp
      have hb0 : groupKey t b0 = k := hkey b0 (List.mem_cons_self _ _)
      have hstep0 : addToGroups [] (groupKey t b0) b0 = [(k, [b0])] := by
        rw [addToGroups, hb0]
      have hkeyrest : ∀ b ∈ rest.flatMap Prod.snd, groupKey t b ≠ k := by
        intro b hb
        obtain ⟨p, hp, hbp⟩ := List.mem_flatMap.mp hb
        have hpk : groupKey t b = p.1 := (hinv p (List.mem_cons_of_mem _ hp)).2 b hbp
        simp only [List.map_cons, List.nodup_cons] at hnd
        intro e
        exact hnd.1 (by
          rw [← e, hpk] at *
          exact List.mem_map.mpr ⟨p, hp, (e ▸ hpk).symm⟩)
      rw [hflat, buildGroups, hstep0,
        buildGroups_const_prefix t g' k [b0] [] (rest.flatMap Prod.snd)
          (fun b hb => hkey b (List.mem_cons_of_mem _ hb))]
      have : ([b0] ++ g' : List PolygonBox) = b0 :: g' := by simp
      rw [this, buildGroups_skip t _ k (b0 :: g') [] hkeyrest]
      simp only [List.map_cons, List.nodup_cons] at hnd
      rw [ih (fun p hp => hinv p (List.mem_cons_of_mem _ hp)) hnd.2]

/-- C9: the reading-order sort is idempotent: re-sorting its own output
(with the same, nonzero tolerance — a zero tolerance raises
`ZeroDivisionError` in the source) returns the same list in the same
order. -/
theorem sortTextLines_idempotent (lines : List PolygonBox) (t : ℚ)
    (ht : t ≠ 0) :
    sortTextLines (sortTextLines lines t) t = sortTextLines lines t := by
  have trans1 : ∀ (a b c : ℚ × List PolygonBox),
      (fun (a b : ℚ × List PolygonBox) => decide (a.1 ≤ b.1)) a b = true →
      (fun (a b : ℚ × List PolygonBox) => decide (a.1 ≤ b.1)) b c = true →
      (fun (a b : ℚ × List PolygonBox) => decide (a.1 ≤ b.1)) a c = true := by
    intro a b c hab hbc
    simp only [decide_eq_true_eq] at *
    exact le_trans hab hbc
  have total1 : ∀ (a b : ℚ × List PolygonBox),
      ((fun (a b : ℚ × List PolygonBox) => decide (a.1 ≤ b.1)) a b ||
       (fun (a b : ℚ × List PolygonBox) => decide (a.1 ≤ b.1)) b a) = true := by
    intro a b
    simp [le_total]
  have trans2 : ∀ (a b c : PolygonBox),
      (fun (a b : PolygonBox) => decide (a.x1 ≤ b.x1)) a b = true →
      (fun (a b : PolygonBox) => decide (a.x1 ≤ b.x1)) b c = true →
      (fun (a b : PolygonBox) => decide (a.x1 ≤ b.x1)) a c = true := by
    intro a b c hab hbc
    simp only [decide_eq_true_eq] at *
    exact le_trans hab hbc
  have total2 : ∀ (a b : PolygonBox),
      ((fun (a b : PolygonBox) => decide (a.x1 ≤ b.x1)) a b ||
       (fun (a b : PolygonBox) => decide (a.x1 ≤ b.x1)) b a) = true := by
    intro a b
    simp [le_total]
  have hperm : ((buildGroups t [] lines).mergeSort
      (fun a b => decide (a.1 ≤ b.1))).Perm (buildGroups t [] lines) :=
    List.mergeSort_perm _ _
  have hinv : ∀ p ∈ buildGroups t [] lines,
      p.2 ≠ [] ∧ ∀ b ∈ p.2, groupKey t b = p.1 :=
    buildGroups_inv t lines [] (by simp)
  have hnd : ((buildGroups t [] lines).map Prod.fst).Nodup :=
    buildGroups_nodup t lines [] (by simp)
  have hout : sortTextLines lines t =
      (((buildGroups t [] lines).mergeSort (fun a b => decide (a.1 ≤ b.1))).map
        (fun p => (p.1, p.2.mergeSort (fun a b => decide (a.x1 ≤ b.x1))))).flatMap
        Prod.snd := by
    rw [sortTextLines, List.flatMap_def, List.flatMap_def, List.map_map]
    rfl
  have hinv' : ∀ p ∈ ((buildGroups t [] lines).mergeSort
        (fun a b => decide (a.1 ≤ b.1))).map
        (fun p => (p.1, p.2.mergeSort (fun a b => decide (a.x1 ≤ b.x1)))),
      p.2 ≠ [] ∧ ∀ b ∈ p.2, groupKey t b = p.1 := by
    intro p hp
    obtain ⟨q, hq, rfl⟩ := List.mem_map.mp hp
    obtain ⟨hne, hkey⟩ := hinv q (hperm.subset hq)
    have hmp : (q.2.mergeSort (fun a b => decide (a.x1 ≤ b.x1))).Perm q.2 :=
      List.mergeSort_perm _ _
    refine ⟨?_, fun b hb => hkey b (hmp.subset hb)⟩
    intro e
    apply hne
    have e' : q.2.mergeSort (fun a b => decide (a.x1 ≤ b.x1)) = [] := e
    have hl := hmp.length_eq
    rw [e'] at hl
    exact List.length_eq_zero.mp hl.symm
  have hnd' : ((((buildGroups t [] lines).mergeSort
        (fun a b => decide (a.1 ≤ b.1))).map
        (fun p => (p.1, p.2.mergeSort (fun a b => decide (a.x1 ≤ b.x1))))).map
        Prod.fst).Nodup := by
    rw [List.map_map]
    have : (Prod.fst ∘ fun (p : ℚ × List PolygonBox) =>
        (p.1, p.2.mergeSort (fun a b => decide (a.x1 ≤ b.x1)))) = Prod.fst := rfl
    rw [this]
    exact ((hperm.map Prod.fst).nodup_iff).mpr hnd
  have hs1 : List.Pairwise
      (fun (a b : ℚ × List PolygonBox) => (decide (a.1 ≤ b.1)) = true)
      ((buildGroups t [] lines).mergeSort (fun a b => decide (a.1 ≤ b.1))) :=
    List.sorted_mergeSort trans1 total1 _
  have hs1' : List.Pairwise
      (fun (a b : ℚ × List PolygonBox) => (decide (a.1 ≤ b.1)) = true)
      (((buildGroups t [] lines).mergeSort (fun a b => decide (a.1 ≤ b.1))).map
        (fun p => (p.1, p.2.mergeSort (fun a b => decide (a.x1 ≤ b.x1))))) :=
    List.pairwise_map.mpr hs1
  rw [hout, sortTextLines,
    buildGroups_blocks t _ hinv' hnd',
    List.mergeSort_of_sorted hs1']
  rw [List.flatMap_def, List.flatMap_def]
  congr 1
  apply List.map_congr_left
  intro p hp
  obtain ⟨q, hq, rfl⟩ := List.mem_map.mp hp
  exact List.mergeSort_of_sorted (List.sorted_mergeSort trans2 total2 q.2)

/-- Witness for C9 on a concrete box list and the default tolerance. -/
theorem sortTextLines_idempotent_witness :
    ((5 : ℚ) / 4 ≠ 0) ∧
    sortTextLines
        (sortTextLines [⟨3, 5, 4, 6⟩, ⟨0, 0, 1, 1⟩, ⟨2, 0, 3, 1⟩] ((5 : ℚ) / 4))
        ((5 : ℚ) / 4) =
      sortTextLines [⟨3, 5, 4, 6⟩, ⟨0, 0, 1, 1⟩, ⟨2, 0, 3, 1⟩] ((5 : ℚ) / 4) :=
  ⟨by norm_num,
   sortTextLines_idempotent [⟨3, 5, 4, 6⟩, ⟨0, 0, 1, 1⟩, ⟨2, 0, 3, 1⟩]
     ((5 : ℚ) / 4) (by norm_num)⟩

end Marker
